import Mathlib

/-!
Shallow embedding of the row-oriented Google Sheets client in
src/gsheetsCrud.ts, together with theorems settling the specification
claims about it.

Modelling conventions:
* A sheet's value range is a `List (List String)`; the empty list models the
  service returning no `values` field at all (an empty sheet), matching the
  `!rows || rows.length === 0` / `response.data.values ? … : null` checks.
* Every public operation is embedded as a pure function from the fetched
  sheet state to a pair of (result-or-error, trace of network calls issued),
  with calls listed in the order the code awaits them.
* JavaScript string primitives (`toUpperCase`, `toLowerCase`, `trim`,
  `split(",")`, `indexOf`) are modelled by their Lean counterparts, which
  agree with JavaScript on the ASCII fragment all claims live in.
* Error wrapping ("❌ Error …: " + error) is dropped; only the kind of the
  underlying failure is kept, which is what the claims distinguish.
-/

namespace GSheetsCrud

/-- A sheet's value range: a list of rows, each a list of cell strings.
`[]` models an empty sheet (the service omits the `values` field). -/
abbrev Sheet := List (List String)

/-- One network call issued through the service handle, carrying the payload
the code sends.  Mirrors the operation shapes used in src/gsheetsCrud.ts. -/
inductive Call : Type
  | valuesGet
  | valuesUpdate (values : List (List String))
  | valuesAppend (row : List String)
  | valuesBatchUpdate (data : List (Int × List (Option String)))
  | spreadsheetsGet
  | spreadsheetsBatchUpdate (requests : List (Int × Int × Int))
  deriving DecidableEq

/-- Failure kinds distinguished by the claims: the two validation errors, the
JavaScript TypeError raised by reading a property of `undefined`, and the
failed sheet-id lookup inside `getSheetId`. -/
inductive Err : Type
  | validationKey (k : String)
  | validationHeaderRow
  | typeError
  | lookupFailed
  deriving DecidableEq

/-- JavaScript array read `l[i]` with a possibly negative or out-of-range
index: both give `undefined`, modelled as `none`. -/
def jsGetInt {α : Type} (l : List α) (i : Int) : Option α :=
  if i < 0 then none else l.get? i.toNat

/-- The check `keys.find(key => key[0] !== key[0].toUpperCase())` from the
source, evaluated left to right: an empty key makes `key[0].toUpperCase()`
throw a TypeError; otherwise the first key whose first character differs from
its uppercase form produces the validation error.  `Char.toUpper` models the
ASCII fragment of JavaScript `toUpperCase`. -/
def jsFindInvalidKey : List String → Except Err Unit
  | [] => Except.ok ()
  | k :: rest =>
    match k.data with
    | [] => Except.error Err.typeError
    | c :: _ =>
      if c.toUpper != c then Except.error (Err.validationKey k)
      else jsFindInvalidKey rest

/-- Property read `rowData[key]` on the row-data object, modelled as an
association list with the object's (unique) keys in insertion order. -/
def jsLookup (rowData : List (String × String)) (k : String) : Option String :=
  (rowData.find? (fun kv => kv.1 == k)).map Prod.snd

/-- `rowData[header] || ""`: a missing value — or the falsy empty string —
becomes the empty string. -/
def jsOrEmpty : Option String → String
  | none => ""
  | some v => if v == "" then "" else v

/-- `headers.indexOf(key)`, as an optional index rather than the -1 sentinel. -/
def jsIndexOf (headers : List String) (k : String) : Option Nat :=
  List.findIdx? (fun h => h == k) headers

/-- `headers.forEach((header, index) => data[header] = row[index])`: pairs
each header with the cell at its position, `none` where the row is shorter. -/
def rowToData : List String → List String → List (String × Option String)
  | [], _ => []
  | h :: hs, [] => (h, none) :: rowToData hs []
  | h :: hs, c :: cs => (h, some c) :: rowToData hs cs

/-- `cellValue.split(",")`: splits the character list at every comma; the
empty string yields one empty part, as in JavaScript. -/
def jsSplitCommas : List Char → List (List Char)
  | [] => [[]]
  | c :: cs =>
    if c = ',' then [] :: jsSplitCommas cs
    else
      match jsSplitCommas cs with
      | [] => [[c]]
      | h :: t => (c :: h) :: t

/-- `s.trim()` over the character list: whitespace removed from both ends
(ASCII fragment of the JavaScript whitespace class). -/
def jsTrim (cs : List Char) : List Char :=
  ((cs.dropWhile Char.isWhitespace).reverse.dropWhile Char.isWhitespace).reverse

/-- `s.toLowerCase()` over the character list (ASCII fragment). -/
def jsToLower (cs : List Char) : List Char :=
  cs.map Char.toLower

/-- The cell predicate of the mapping query (findRow lines 149-156): a present
cell (always a string in the value range) is split on commas, each part
trimmed and lowercased, and must contain the lowercased query value; an
absent cell (`undefined`) falls to strict equality with a string, i.e. false. -/
def matchCell (cell : Option String) (v : String) : Bool :=
  match cell with
  | none => false
  | some c =>
    ((jsSplitCommas c.data).map (fun p => jsToLower (jsTrim p))).any
      (fun p => p == jsToLower v.data)

/-- `Object.entries(query).every(...)`: every query key must resolve to a
header column whose cell satisfies `matchCell`. -/
def rowMatches (headers : List String) (q : List (String × String))
    (row : List String) : Bool :=
  q.all (fun kv =>
    match jsIndexOf headers kv.1 with
    | none => false
    | some ci => matchCell (row.get? ci) kv.2)

/-- The mapping-query scan (`rows.forEach`, findRow lines 135-166): skips the
header row, re-runs the key-format check on every data row (so the error is
thrown mid-scan, only if a data row is visited), and collects matching rows
with their 1-based index in sheet order. -/
def scanRows (headers : List String) (q : List (String × String)) :
    List (Nat × List String) → Except Err (List (Int × List (String × Option String)))
  | [] => Except.ok []
  | (i, row) :: rest =>
    if i == 0 then scanRows headers q rest
    else
      match jsFindInvalidKey (q.map Prod.fst) with
      | Except.error e => Except.error e
      | Except.ok () =>
        match scanRows headers q rest with
        | Except.error e => Except.error e
        | Except.ok tailResults =>
          if rowMatches headers q row then
            Except.ok ((Int.ofNat (i + 1), rowToData headers row) :: tailResults)
          else Except.ok tailResults

/-- A findRow query: an exact 1-based row position, or a column-to-value map. -/
inductive Query
  | byIndex (n : Int)
  | byQuery (q : List (String × String))

/-- findRow (lines 108-173).  The value range is fetched first; an empty sheet
returns `[]` whatever the query.  An integer query rejects position 1, returns
`[]` beyond the row count, and otherwise zips the headers with the row; the
`rows[query-1]` read of a non-positive position is `undefined`, so building
the data object throws a TypeError unless the header row is empty. -/
def findRow (sheet : Sheet) (query : Query) :
    Except Err (List (Int × List (String × Option String))) × List Call :=
  if sheet.isEmpty then (Except.ok [], [Call.valuesGet])
  else
    let headers := sheet.headD []
    match query with
    | Query.byIndex n =>
      if n == 1 then (Except.error Err.validationHeaderRow, [Call.valuesGet])
      else if n ≤ Int.ofNat sheet.length then
        match jsGetInt sheet (n - 1) with
        | some row => (Except.ok [(n, rowToData headers row)], [Call.valuesGet])
        | none =>
          if headers.isEmpty then (Except.ok [(n, [])], [Call.valuesGet])
          else (Except.error Err.typeError, [Call.valuesGet])
      else (Except.ok [], [Call.valuesGet])
    | Query.byQuery q => (scanRows headers q sheet.enum, [Call.valuesGet])

/-- `Object.keys(rowData).forEach(key => { if (!headers.includes(key)) headers.push(key) })`. -/
def extendHeaders (headers : List String) (keys : List String) : List String :=
  keys.foldl (fun hs k => if hs.contains k then hs else hs ++ [k]) headers

/-- `headers.map(header => rowData[header] || "")`. -/
def assembleRow (headers : List String) (rowData : List (String × String)) :
    List String :=
  headers.map (fun h => jsOrEmpty (jsLookup rowData h))

/-- addRow (lines 181-243).  The value range is fetched, then the key check
runs; with no headers the keys become the header row (written back before the
append), otherwise missing keys are pushed onto the headers and the extended
header row is rewritten together with the untouched data rows; the assembled
row is appended and the service-assigned 1-based position returned. -/
def addRow (sheet : Sheet) (rowData : List (String × String)) :
    Except Err (Int × List (String × String)) × List Call :=
  match jsFindInvalidKey (rowData.map Prod.fst) with
  | Except.error e => (Except.error e, [Call.valuesGet])
  | Except.ok () =>
    match sheet with
    | [] =>
      let headers := rowData.map Prod.fst
      (Except.ok (2, rowData),
        [Call.valuesGet, Call.valuesUpdate [headers],
         Call.valuesAppend (assembleRow headers rowData)])
    | h :: rest =>
      let headers := extendHeaders h (rowData.map Prod.fst)
      (Except.ok (Int.ofNat rest.length + 2, rowData),
        [Call.valuesGet, Call.valuesUpdate (headers :: rest),
         Call.valuesAppend (assembleRow headers rowData)])

/-- A single position or a sequence, as accepted by updateRow and deleteRow. -/
inductive IndexArg
  | single (n : Int)
  | many (ns : List Int)

/-- `Array.isArray(rowIndexes) ? rowIndexes : [rowIndexes]`. -/
def normalizeIndexes : IndexArg → List Int
  | IndexArg.single n => [n]
  | IndexArg.many ns => ns

/-- JavaScript array element assignment `a[i] = v`: in range it overwrites,
past the end it extends the array, filling the gap with holes (`none`). -/
def jsArraySet (l : List (Option String)) (i : Nat) (v : String) :
    List (Option String) :=
  if i < l.length then l.set i (some v)
  else l ++ List.replicate (i - l.length) none ++ [some v]

/-- The per-row patch of updateRow (lines 282-288): start from a copy of the
existing row and assign `updatedValues[headers.indexOf(key)] = value` for each
rowData entry whose key resolves to a header column. -/
def buildUpdatedRow (headers : List String) (existingRow : List String)
    (rowData : List (String × String)) : List (Option String) :=
  rowData.foldl (fun acc kv =>
    match jsIndexOf headers kv.1 with
    | some i => jsArraySet acc i kv.2
    | none => acc) (existingRow.map some)

/-- updateRow (lines 252-307).  The header-row index check and the key check
both run before the fetch; on an empty sheet `response.data.values[0]` throws
a TypeError; otherwise one batchUpdate carries, for each target position, the
range `A{rowIndex}` and the patched row built from
`response.data.values[rowIndex - 1] || []`. -/
def updateRow (sheet : Sheet) (rowIndexes : IndexArg)
    (rowData : List (String × String)) : Except Err Unit × List Call :=
  let indexes := normalizeIndexes rowIndexes
  if indexes.contains 1 then (Except.error Err.validationHeaderRow, [])
  else
    match jsFindInvalidKey (rowData.map Prod.fst) with
    | Except.error e => (Except.error e, [])
    | Except.ok () =>
      match sheet with
      | [] => (Except.error Err.typeError, [Call.valuesGet])
      | headers :: _ =>
        let requests := indexes.map (fun i =>
          (i, buildUpdatedRow headers ((jsGetInt sheet (i - 1)).getD []) rowData))
        (Except.ok (), [Call.valuesGet, Call.valuesBatchUpdate requests])

/-- getSheetId's lookup of the sheet whose title equals the configured name,
over the spreadsheet's (title, sheetId) list. -/
def lookupSheetId (sheets : List (String × Int)) (name : String) : Option Int :=
  (sheets.find? (fun s => s.1 == name)).map Prod.snd

/-- deleteRow (lines 315-341).  The normalized positions are sorted descending
(`sort((a, b) => b - a)`), the sheet id resolved (a failed lookup throws),
and one spreadsheet batchUpdate carries a deleteDimension request per
position with the half-open 0-based range [index-1, index); the returned
count is the number of replies, one per request. -/
def deleteRow (sheets : List (String × Int)) (name : String)
    (rowIndexes : IndexArg) : Except Err Int × List Call :=
  let sorted := (normalizeIndexes rowIndexes).mergeSort (fun a b => b ≤ a)
  match lookupSheetId sheets name with
  | none => (Except.error Err.lookupFailed, [Call.spreadsheetsGet])
  | some sid =>
    let requests := sorted.map (fun i => (sid, i - 1, i))
    (Except.ok (Int.ofNat requests.length),
      [Call.spreadsheetsGet, Call.spreadsheetsBatchUpdate requests])

/-- A JavaScript value as seen by convertGoogleDriveLink: a string, or any
non-string value (identified by a tag, since only identity matters). -/
inductive JsValue
  | str (s : String)
  | nonString (tag : Nat)
  deriving DecidableEq

/-- The character class `[a-zA-Z0-9_-]` of the share-link regex. -/
def isIdChar (c : Char) : Bool :=
  c.isAlpha || c.isDigit || c == '_' || c == '-'

/-- `url.match(/\/d\/([a-zA-Z0-9_-]+)/)`: scanning left to right, the first
position where the literal `/d/` is followed by at least one id character
matches, capturing the maximal run of id characters. -/
def findId : List Char → Option (List Char)
  | [] => none
  | c :: cs =>
    match c, cs with
    | '/', 'd' :: '/' :: rest =>
      let ident := rest.takeWhile isIdChar
      if ident.isEmpty then findId cs else some ident
    | _, _ => findId cs

/-- The rewritten direct-content base URL. -/
def driveLinkBase : String := "https://drive.google.com/uc?id="

/-- convertGoogleDriveLink (lines 348-370): a non-string input is returned
unchanged; a string is rewritten to the direct-content link when the regex
matches and returned unchanged otherwise. -/
def convertGoogleDriveLink : JsValue → JsValue
  | JsValue.nonString t => JsValue.nonString t
  | JsValue.str url =>
    match findId url.data with
    | some ident => JsValue.str (driveLinkBase ++ String.mk ident)
    | none => JsValue.str url

/-- Spec-side notion: the key's first character is an uppercase letter. -/
def startsWithUppercaseLetter (k : String) : Bool :=
  match k.data with
  | [] => false
  | c :: _ => c.isUpper

/-- Spec-side restatement of the code's actual criterion: the first character
differs from its uppercase form (so digits and other case-less characters
pass, unlike under `startsWithUppercaseLetter`). -/
def keyFailsUpperRule (k : String) : Bool :=
  match k.data with
  | [] => false
  | c :: _ => c.toUpper != c

/-- The effective value of the patched row at column `j`: `none` both past the
end of the list and at an explicit hole. -/
def cellAt (r : List (Option String)) (j : Nat) : Option String :=
  (r.get? j).getD none

instance {ε α : Type} [DecidableEq ε] [DecidableEq α] : DecidableEq (Except ε α) :=
  fun a b =>
    match a, b with
    | Except.error e1, Except.error e2 =>
      if h : e1 = e2 then isTrue (by rw [h])
      else isFalse (fun he => h (Except.error.inj he))
    | Except.ok v1, Except.ok v2 =>
      if h : v1 = v2 then isTrue (by rw [h])
      else isFalse (fun he => h (Except.ok.inj he))
    | Except.error _, Except.ok _ => isFalse (fun he => Except.noConfusion he)
    | Except.ok _, Except.error _ => isFalse (fun he => Except.noConfusion he)

/-! ### Helper lemmas -/

theorem toUpper_eq_of_isUpper {c : Char} (h : c.isUpper = true) : c.toUpper = c := by
  simp [Char.isUpper, UInt32.le_def, BitVec.le_def] at h
  simp [Char.toUpper, Char.toNat, UInt32.toNat]
  omega

theorem jsFindInvalidKey_eq_find : ∀ (ks : List String), (∀ k ∈ ks, k.data ≠ []) →
    jsFindInvalidKey ks =
      (match ks.find? keyFailsUpperRule with
       | some k => Except.error (Err.validationKey k)
       | none => Except.ok ()) := by
  intro ks
  induction ks with
  | nil => intro _; rfl
  | cons k rest ih =>
    intro hne
    have hk : k.data ≠ [] := hne k (by simp)
    rw [jsFindInvalidKey]
    cases hd : k.data with
    | nil => exact absurd hd hk
    | cons c t =>
      have hrule : keyFailsUpperRule k = (c.toUpper != c) := by
        rw [keyFailsUpperRule, hd]
      rw [List.find?_cons]
      by_cases hc : c.toUpper = c
      · simp only [hd, hc, bne_self_eq_false, if_neg, Bool.false_eq_true, not_false_eq_true]
        rw [hrule]
        simp only [hc, bne_self_eq_false]
        exact ih (fun x hx => hne x (by simp [hx]))
      · have hb : (c.toUpper != c) = true := by simp [bne_iff_ne, hc]
        simp only [hd, hb, if_true]
        rw [hrule, hb]

theorem jsFindInvalidKey_ok_of_upper : ∀ (ks : List String),
    (∀ k ∈ ks, startsWithUppercaseLetter k = true) →
    jsFindInvalidKey ks = Except.ok () := by
  intro ks
  induction ks with
  | nil => intro _; rfl
  | cons k rest ih =>
    intro hup
    have hk := hup k (by simp)
    rw [jsFindInvalidKey]
    cases hd : k.data with
    | nil => rw [startsWithUppercaseLetter, hd] at hk; simp at hk
    | cons c t =>
      rw [startsWithUppercaseLetter, hd] at hk
      have hcu : c.toUpper = c := toUpper_eq_of_isUpper hk
      simp only [hd, hcu, bne_self_eq_false, Bool.false_eq_true, if_neg, not_false_eq_true]
      exact ih (fun x hx => hup x (by simp [hx]))

theorem toUpper_eq_of_isDigit {c : Char} (h : c.isDigit = true) : c.toUpper = c := by
  simp [Char.isDigit, UInt32.le_def, BitVec.le_def] at h
  simp [Char.toUpper, Char.toNat, UInt32.toNat]
  omega

theorem jsFindInvalidKey_ok_of_rule : ∀ ks : List String,
    (∀ x ∈ ks, x.data ≠ [] ∧ keyFailsUpperRule x = false) →
    jsFindInvalidKey ks = Except.ok () := by
  intro ks h
  rw [jsFindInvalidKey_eq_find ks (fun x hx => (h x hx).1)]
  have hnone : ks.find? keyFailsUpperRule = none :=
    List.find?_eq_none.mpr (fun x hx => by simp [(h x hx).2])
  rw [hnone]

theorem jsOrEmpty_eq_getD (o : Option String) : jsOrEmpty o = o.getD "" := by
  cases o with
  | none => rfl
  | some v =>
    rw [jsOrEmpty]
    by_cases hv : v = ""
    · subst hv; rfl
    · rw [if_neg (by simpa using hv)]; rfl

theorem extendHeaders_eq : ∀ (keys : List String), keys.Nodup →
    ∀ h : List String,
      extendHeaders h keys = h ++ keys.filter (fun k => !(h.contains k)) := by
  intro keys
  induction keys with
  | nil => intro _ h; simp [extendHeaders]
  | cons k ks ih =>
    intro hnd h
    have hknotin : k ∉ ks := (List.nodup_cons.mp hnd).1
    have hndks : ks.Nodup := (List.nodup_cons.mp hnd).2
    rw [extendHeaders, List.foldl_cons, List.filter_cons]
    by_cases hc : h.contains k = true
    · rw [if_pos hc]
      have hfalse : (!(h.contains k)) = false := by rw [hc]; rfl
      rw [hfalse, if_neg (by simp)]
      exact ih hndks h
    · rw [if_neg hc]
      have hch : h.contains k = false := by
        cases hcc : h.contains k
        · rfl
        · exact absurd hcc hc
      have htrue : (!(h.contains k)) = true := by rw [hch]; rfl
      rw [htrue, if_pos rfl]
      have hrec := ih hndks (h ++ [k])
      rw [extendHeaders] at hrec
      rw [hrec]
      have hfilter : ks.filter (fun x => !((h ++ [k]).contains x)) =
          ks.filter (fun x => !(h.contains x)) := by
        apply List.filter_congr
        intro x hx
        have hxk : x ≠ k := fun he => hknotin (he ▸ hx)
        simp [List.contains, List.elem_eq_mem, hxk]
      rw [hfilter]
      simp

theorem cellAt_jsArraySet_ne (l : List (Option String)) (i j : Nat) (v : String)
    (hij : i ≠ j) : cellAt (jsArraySet l i v) j = cellAt l j := by
  unfold cellAt jsArraySet
  by_cases hi : i < l.length
  · rw [if_pos hi]
    rw [List.get?_eq_getElem?, List.get?_eq_getElem?, List.getElem?_set_ne hij]
  · rw [if_neg hi]
    rw [List.get?_eq_getElem?, List.get?_eq_getElem?]
    by_cases hj : j < l.length
    · rw [List.append_assoc, List.getElem?_append_left hj]
    · have hjlen : l.length ≤ j := Nat.le_of_not_lt hj
      rw [List.append_assoc, List.getElem?_append_right hjlen]
      have hnone : l[j]? = none := List.getElem?_eq_none hjlen
      rw [hnone]
      rcases Nat.lt_or_ge (j - l.length) (i - l.length) with hlt | hge
      · rw [List.getElem?_append_left (by simpa using hlt), List.getElem?_replicate]
        rw [if_pos hlt]
        rfl
      · rw [List.getElem?_append_right (by simpa using hge)]
        have hilen : l.length ≤ i := Nat.le_of_not_lt hi
        rw [List.length_replicate]
        cases hd : j - l.length - (i - l.length) with
        | zero => omega
        | succ m => simp

theorem cellAt_map_some (row : List String) (j : Nat) :
    cellAt (row.map some) j = row.get? j := by
  unfold cellAt
  rw [List.get?_eq_getElem?, List.get?_eq_getElem?, List.getElem?_map]
  cases row[j]? <;> rfl

theorem buildUpdatedRow_frame (headers : List String) (rd : List (String × String))
    (j : Nat) (hj : ∀ kv ∈ rd, jsIndexOf headers kv.1 ≠ some j) :
    ∀ row : List String, cellAt (buildUpdatedRow headers row rd) j = row.get? j := by
  intro row
  unfold buildUpdatedRow
  suffices h : ∀ acc : List (Option String),
      cellAt (rd.foldl (fun acc kv =>
        match jsIndexOf headers kv.1 with
        | some i => jsArraySet acc i kv.2
        | none => acc) acc) j = cellAt acc j by
    rw [h]; exact cellAt_map_some row j
  induction rd with
  | nil => intro acc; rfl
  | cons kv rest ih =>
    intro acc
    rw [List.foldl_cons]
    have hkv := hj kv (by simp)
    have htail : ∀ kv2 ∈ rest, jsIndexOf headers kv2.1 ≠ some j :=
      fun kv2 h2 => hj kv2 (by simp [h2])
    cases hidx : jsIndexOf headers kv.1 with
    | none => simp only [hidx]; exact ih htail acc
    | some i =>
      simp only [hidx]
      rw [ih htail (jsArraySet acc i kv.2)]
      exact cellAt_jsArraySet_ne acc i j kv.2 (fun he => hkv (he ▸ hidx))

theorem jsIndexOf_get {headers : List String} {k : String} {j : Nat}
    (h : jsIndexOf headers k = some j) : headers.get? j = some k := by
  rw [jsIndexOf] at h
  rw [List.findIdx?_eq_some_iff_findIdx_eq] at h
  obtain ⟨hlt, hidx⟩ := h
  have hp := @List.findIdx_getElem _ (fun x => x == k) headers
    (by rw [hidx]; exact hlt)
  have hk2 : headers[j] = k := by
    have hb := beq_iff_eq.mp hp
    simpa [hidx] using hb
  rw [List.get?_eq_getElem?, List.getElem?_eq_getElem hlt, hk2]

theorem scanRows_ok_eq (headers : List String) (q : List (String × String))
    (hok : jsFindInvalidKey (q.map Prod.fst) = Except.ok ()) :
    ∀ rows : List (Nat × List String),
      scanRows headers q rows = Except.ok
        ((rows.filter (fun p => !(p.1 == 0) && rowMatches headers q p.2)).map
          (fun p => (Int.ofNat (p.1 + 1), rowToData headers p.2))) := by
  intro rows
  induction rows with
  | nil => rfl
  | cons p rest ih =>
    obtain ⟨i, row⟩ := p
    rw [scanRows, List.filter_cons]
    by_cases hi : i = 0
    · subst hi
      simp only [if_pos rfl]
      rw [ih]
      norm_num
    · have hib : (i == 0) = false := by simpa using hi
      rw [if_neg (by simp [hi]), hok, ih]
      by_cases hm : rowMatches headers q row = true
      · simp [hib, hm]
      · have hmf : rowMatches headers q row = false := by
          cases hmm : rowMatches headers q row
          · rfl
          · exact absurd hmm hm
        simp [hib, hmf]

theorem scanRows_error (headers : List String) (q : List (String × String))
    (e : Err) (herr : jsFindInvalidKey (q.map Prod.fst) = Except.error e) :
    ∀ (i : Nat) (row : List String) (rest : List (Nat × List String)), i ≠ 0 →
      scanRows headers q ((i, row) :: rest) = Except.error e := by
  intro i row rest hi
  rw [scanRows, if_neg (by simp [hi]), herr]

theorem findId_some_decomp : ∀ (cs ident : List Char),
    findId cs = some ident →
    ∃ p c r, cs = p ++ '/' :: 'd' :: '/' :: c :: r ∧ isIdChar c = true := by
  intro cs
  induction cs with
  | nil => intro ident h; simp [findId] at h
  | cons x xs ih =>
    intro ident h
    rw [findId.eq_def] at h
    simp only [] at h
    split at h
    · rename_i rest
      by_cases hemp : (rest.takeWhile isIdChar).isEmpty
      · simp only [hemp, if_true] at h
        obtain ⟨p, c, r, hp, hc⟩ := ih ident h
        exact ⟨'/' :: p, c, r, by simp [hp], hc⟩
      · simp only [hemp, if_false, Option.some.injEq, Bool.false_eq_true] at h
        cases hr : rest with
        | nil => subst hr; simp [List.takeWhile] at hemp
        | cons c r =>
          subst hr
          by_cases hc : isIdChar c
          · exact ⟨[], c, r, rfl, hc⟩
          · simp [List.takeWhile, hc] at hemp
    · obtain ⟨p, c, r, hp, hc⟩ := ih ident h
      exact ⟨x :: p, c, r, by simp [hp], hc⟩

theorem findId_isSome_of_decomp : ∀ (p : List Char) (c : Char) (r : List Char),
    isIdChar c = true → (findId (p ++ '/' :: 'd' :: '/' :: c :: r)).isSome := by
  intro p
  induction p with
  | nil =>
    intro c r hc
    simp only [List.nil_append]
    rw [findId.eq_def]
    simp [List.takeWhile, hc]
  | cons x xs ih =>
    intro c r hc
    simp only [List.cons_append]
    rw [findId.eq_def]
    simp only []
    split
    · rename_i rest heq
      by_cases hemp : (rest.takeWhile isIdChar).isEmpty
      · simp only [hemp, if_true]
        simpa using ih c r hc
      · simp [hemp]
    · simpa using ih c r hc

/-! ### Claims -/

/-- C1 (counterexample): on a sheet holding only a header row, mapping-form
findRow with the key "name" — which does not start with an uppercase letter —
returns the empty sequence instead of failing with a Validation error,
because the key check only runs while visiting data rows. -/
theorem c1_counterexample :
    startsWithUppercaseLetter "name" = false ∧
    (findRow [["Name"]] (Query.byQuery [("name", "x")])).1 = Except.ok [] := by
  exact ⟨by decide, by decide⟩

/-- C1 (amended): the operative rule is the code's check that a key's first
character equals its own uppercase form, and in mapping-form findRow it only
runs per data row.  Uppercase letters and digits both satisfy the rule.  For
addRow and — with the header-row index check passed — updateRow, a key
failing the rule yields the key Validation error, while rule-passing keys
(in particular keys starting with an uppercase letter, and digit-leading
keys) never do; for mapping-form findRow the same holds once the sheet has
at least one data row, while an empty or header-only sheet never raises it,
whatever the keys. -/
theorem c1_amended_uppercase_rule :
    (∀ (k : String) (c : Char) (t : List Char),
      k.data = c :: t → (c.isUpper = true ∨ c.isDigit = true) →
      keyFailsUpperRule k = false) ∧
    (∀ (sheet : Sheet) (rd : List (String × String)) (k : String),
      (∀ x ∈ rd.map Prod.fst, x.data ≠ []) →
      (rd.map Prod.fst).find? keyFailsUpperRule = some k →
      (addRow sheet rd).1 = Except.error (Err.validationKey k)) ∧
    (∀ (sheet : Sheet) (rd : List (String × String)),
      (∀ x ∈ rd.map Prod.fst, x.data ≠ [] ∧ keyFailsUpperRule x = false) →
      ∃ r, (addRow sheet rd).1 = Except.ok r) ∧
    (∀ (sheet : Sheet) (rd : List (String × String)),
      (∀ x ∈ rd.map Prod.fst, startsWithUppercaseLetter x = true) →
      ∃ r, (addRow sheet rd).1 = Except.ok r) ∧
    (∀ (sheet : Sheet) (arg : IndexArg) (rd : List (String × String)) (k : String),
      (normalizeIndexes arg).contains 1 = false →
      (∀ x ∈ rd.map Prod.fst, x.data ≠ []) →
      (rd.map Prod.fst).find? keyFailsUpperRule = some k →
      (updateRow sheet arg rd).1 = Except.error (Err.validationKey k)) ∧
    (∀ (sheet : Sheet) (arg : IndexArg) (rd : List (String × String)) (k : String),
      (∀ x ∈ rd.map Prod.fst, x.data ≠ [] ∧ keyFailsUpperRule x = false) →
      (updateRow sheet arg rd).1 ≠ Except.error (Err.validationKey k)) ∧
    (∀ (sheet : Sheet) (arg : IndexArg) (rd : List (String × String)) (k : String),
      (∀ x ∈ rd.map Prod.fst, startsWithUppercaseLetter x = true) →
      (updateRow sheet arg rd).1 ≠ Except.error (Err.validationKey k)) ∧
    (∀ (h r : List String) (rest : Sheet) (q : List (String × String)) (k : String),
      (∀ x ∈ q.map Prod.fst, x.data ≠ []) →
      (q.map Prod.fst).find? keyFailsUpperRule = some k →
      (findRow (h :: r :: rest) (Query.byQuery q)).1 =
        Except.error (Err.validationKey k)) ∧
    (∀ q : List (String × String), (findRow [] (Query.byQuery q)).1 = Except.ok []) ∧
    (∀ (h : List String) (q : List (String × String)),
      (findRow [h] (Query.byQuery q)).1 = Except.ok []) ∧
    (∀ (sheet : Sheet) (q : List (String × String)),
      (∀ x ∈ q.map Prod.fst, x.data ≠ [] ∧ keyFailsUpperRule x = false) →
      ∃ r, (findRow sheet (Query.byQuery q)).1 = Except.ok r) ∧
    (∀ (sheet : Sheet) (q : List (String × String)),
      (∀ x ∈ q.map Prod.fst, startsWithUppercaseLetter x = true) →
      ∃ r, (findRow sheet (Query.byQuery q)).1 = Except.ok r) := by
  have herr : ∀ (ks : List String) (k : String), (∀ x ∈ ks, x.data ≠ []) →
      ks.find? keyFailsUpperRule = some k →
      jsFindInvalidKey ks = Except.error (Err.validationKey k) := by
    intro ks k hne hfind
    rw [jsFindInvalidKey_eq_find ks hne, hfind]
  have haddok : ∀ (sheet : Sheet) (rd : List (String × String)),
      jsFindInvalidKey (rd.map Prod.fst) = Except.ok () →
      ∃ r, (addRow sheet rd).1 = Except.ok r := by
    intro sheet rd hok
    cases sheet with
    | nil => exact ⟨_, by rw [addRow.eq_def, hok]⟩
    | cons h rest => exact ⟨_, by rw [addRow.eq_def, hok]⟩
  have hupdne : ∀ (sheet : Sheet) (arg : IndexArg) (rd : List (String × String))
      (k : String),
      jsFindInvalidKey (rd.map Prod.fst) = Except.ok () →
      (updateRow sheet arg rd).1 ≠ Except.error (Err.validationKey k) := by
    intro sheet arg rd k hok heq
    rw [updateRow.eq_def] at heq
    by_cases hcont : (normalizeIndexes arg).contains 1 = true
    · simp only [hcont, if_true] at heq
      exact Err.noConfusion (Except.error.inj heq)
    · simp only [hcont, Bool.false_eq_true, if_false, hok] at heq
      cases sheet with
      | nil => exact Err.noConfusion (Except.error.inj heq)
      | cons h rest => exact Except.noConfusion heq
  have hfindok : ∀ (sheet : Sheet) (q : List (String × String)),
      jsFindInvalidKey (q.map Prod.fst) = Except.ok () →
      ∃ r, (findRow sheet (Query.byQuery q)).1 = Except.ok r := by
    intro sheet q hok
    cases sheet with
    | nil => exact ⟨[], rfl⟩
    | cons h rest => exact ⟨_, scanRows_ok_eq h q hok ((h :: rest).enum)⟩
  refine ⟨?_, ?_, ?_, ?_, ?_, ?_, ?_, ?_, ?_, ?_, ?_, ?_⟩
  · intro k c t hd hor
    rw [keyFailsUpperRule, hd]
    rcases hor with hu | hdg
    · simp [toUpper_eq_of_isUpper hu]
    · simp [toUpper_eq_of_isDigit hdg]
  · intro sheet rd k hne hfind
    rw [addRow.eq_def, herr _ k hne hfind]
  · intro sheet rd hrule
    exact haddok sheet rd (jsFindInvalidKey_ok_of_rule _ hrule)
  · intro sheet rd hup
    exact haddok sheet rd (jsFindInvalidKey_ok_of_upper _ hup)
  · intro sheet arg rd k hcont hne hfind
    rw [updateRow.eq_def]
    simp only [hcont, Bool.false_eq_true, if_false, herr _ k hne hfind]
  · intro sheet arg rd k hrule
    exact hupdne sheet arg rd k (jsFindInvalidKey_ok_of_rule _ hrule)
  · intro sheet arg rd k hup
    exact hupdne sheet arg rd k (jsFindInvalidKey_ok_of_upper _ hup)
  · intro h r rest q k hne hfind
    have he := herr _ k hne hfind
    have hred : (findRow (h :: r :: rest) (Query.byQuery q)).1 =
        scanRows h q ((1, r) :: List.enumFrom 2 rest) := rfl
    rw [hred]
    exact scanRows_error _ _ _ he 1 r _ (by simp)
  · intro q; rfl
  · intro h q; rfl
  · intro sheet q hrule
    exact hfindok sheet q (jsFindInvalidKey_ok_of_rule _ hrule)
  · intro sheet q hup
    exact hfindok sheet q (jsFindInvalidKey_ok_of_upper _ hup)

/-- C1 (witness): the amended rule at concrete inputs — the digit-leading key
"1x" does not start with an uppercase letter yet passes the rule and every
operation accepts it; the key "name" fails addRow, updateRow and data-row
findRow; "Name" never fails; an empty or header-only sheet never raises the
key error. -/
theorem c1_amended_uppercase_rule_witness :
    keyFailsUpperRule "1x" = false ∧
    startsWithUppercaseLetter "1x" = false ∧
    (addRow [["Name"], ["A"]] [("name", "v")]).1 =
      Except.error (Err.validationKey "name") ∧
    (∃ r, (addRow [["Name"], ["A"]] [("1x", "v")]).1 = Except.ok r) ∧
    (∃ r, (addRow [["Name"], ["A"]] [("Name", "v")]).1 = Except.ok r) ∧
    (updateRow [["Name"], ["A"]] (IndexArg.single 2) [("name", "v")]).1 =
      Except.error (Err.validationKey "name") ∧
    ((updateRow [["Name"], ["A"]] (IndexArg.single 2) [("1x", "v")]).1 ≠
      Except.error (Err.validationKey "1x")) ∧
    ((updateRow [["Name"], ["A"]] (IndexArg.single 2) [("Name", "v")]).1 ≠
      Except.error (Err.validationKey "Name")) ∧
    (findRow [["Name"], ["A"]] (Query.byQuery [("name", "v")])).1 =
      Except.error (Err.validationKey "name") ∧
    (findRow [] (Query.byQuery [("name", "v")])).1 = Except.ok [] ∧
    (findRow [["Name"]] (Query.byQuery [("name", "v")])).1 = Except.ok [] ∧
    (∃ r, (findRow [["Name"], ["A"]] (Query.byQuery [("1x", "v")])).1 =
      Except.ok r) ∧
    (∃ r, (findRow [["Name"], ["A"]] (Query.byQuery [("Name", "A")])).1 =
      Except.ok r) := by
  obtain ⟨h0, h1, h2, h3, h4, h5, h6, h7, h8, h9, h10, h11⟩ :=
    c1_amended_uppercase_rule
  exact ⟨h0 "1x" '1' ['x'] (by decide) (Or.inr (by decide)), by decide,
    h1 _ _ _ (by decide) (by decide),
    h2 _ _ (by decide),
    h3 _ _ (by decide),
    h4 _ _ _ _ (by decide) (by decide) (by decide),
    h5 _ _ _ _ (by decide),
    h6 _ _ _ _ (by decide),
    h7 _ _ _ _ _ (by decide) (by decide),
    h8 _, h9 _ _,
    h10 _ _ (by decide),
    h11 _ _ (by decide)⟩

/-- C2 (counterexample): addRow with the non-uppercase key "name" does raise
the key Validation error, but only after the value-range read has been
issued — the call trace already holds the read, so a network call precedes
the check. -/
theorem c2_counterexample :
    startsWithUppercaseLetter "name" = false ∧
    (addRow [["Name"], ["A"]] [("name", "v")]).1 =
      Except.error (Err.validationKey "name") ∧
    (addRow [["Name"], ["A"]] [("name", "v")]).2 = [Call.valuesGet] := by
  exact ⟨by decide, by decide, by decide⟩

/-- C2 (amended): for every rowData containing a key that fails the
uppercase-form rule (first problematic key decides), addRow raises the key
Validation error after the single initial value-range read and before any
write or append call: the call trace is exactly the one read. -/
theorem c2_amended_check_after_read :
    ∀ (sheet : Sheet) (rd : List (String × String)) (k : String),
      (∀ x ∈ rd.map Prod.fst, x.data ≠ []) →
      (rd.map Prod.fst).find? keyFailsUpperRule = some k →
      (addRow sheet rd).1 = Except.error (Err.validationKey k) ∧
      (addRow sheet rd).2 = [Call.valuesGet] := by
  intro sheet rd k hne hfind
  have herr : jsFindInvalidKey (rd.map Prod.fst) =
      Except.error (Err.validationKey k) := by
    rw [jsFindInvalidKey_eq_find _ hne, hfind]
  constructor
  · rw [addRow.eq_def, herr]
  · rw [addRow.eq_def, herr]

/-- C2 (witness): the amended statement at the concrete key "name". -/
theorem c2_amended_check_after_read_witness :
    (addRow [["Name"], ["A"]] [("name", "v")]).1 =
      Except.error (Err.validationKey "name") ∧
    (addRow [["Name"], ["A"]] [("name", "v")]).2 = [Call.valuesGet] :=
  c2_amended_check_after_read [["Name"], ["A"]] [("name", "v")] "name"
    (by decide) (by decide)

/-- C3 (counterexample): on an empty sheet (no value range) findRow(1)
returns the empty sequence — it does not fail with a Validation error,
because the empty-sheet early return precedes the index check. -/
theorem c3_counterexample :
    (findRow [] (Query.byIndex 1)).1 = Except.ok [] := by decide

/-- C3 (amended): findRow(1) fails with the header-row Validation error on
every sheet with a nonempty value range, and returns the empty sequence on an
empty sheet; updateRow whose normalized index sequence contains 1 fails with
the header-row Validation error for every sheet state, before any call. -/
theorem c3_amended_header_index_validation :
    (∀ sheet : Sheet, sheet ≠ [] →
      (findRow sheet (Query.byIndex 1)).1 = Except.error Err.validationHeaderRow) ∧
    (findRow [] (Query.byIndex 1)).1 = Except.ok [] ∧
    (∀ (sheet : Sheet) (arg : IndexArg) (rd : List (String × String)),
      (normalizeIndexes arg).contains 1 = true →
      (updateRow sheet arg rd).1 = Except.error Err.validationHeaderRow ∧
      (updateRow sheet arg rd).2 = []) := by
  refine ⟨?_, by decide, ?_⟩
  · intro sheet hne
    cases sheet with
    | nil => exact absurd rfl hne
    | cons h rest => rfl
  · intro sheet arg rd hcont
    constructor
    · rw [updateRow.eq_def]; simp only [hcont, if_true]
    · rw [updateRow.eq_def]; simp only [hcont, if_true]

/-- C3 (witness): the amended statement at concrete inputs — a one-row sheet
for findRow(1), and index 1 against an empty sheet for updateRow. -/
theorem c3_amended_header_index_validation_witness :
    (findRow [["Name"]] (Query.byIndex 1)).1 =
      Except.error Err.validationHeaderRow ∧
    ((updateRow [] (IndexArg.single 1) [("Name", "v")]).1 =
      Except.error Err.validationHeaderRow ∧
     (updateRow [] (IndexArg.single 1) [("Name", "v")]).2 = []) := by
  obtain ⟨h1, _, h3⟩ := c3_amended_header_index_validation
  exact ⟨h1 [["Name"]] (by decide), h3 [] (IndexArg.single 1) [("Name", "v")] (by decide)⟩

/-- C4: findRow with an integer position greater than the number of rows of
the value range returns the empty sequence rather than an error, and findRow
on an empty sheet (no value range) returns the empty sequence for either
query shape. -/
theorem c4_out_of_range_and_empty :
    (∀ (sheet : Sheet) (n : Int), Int.ofNat sheet.length < n →
      (findRow sheet (Query.byIndex n)).1 = Except.ok []) ∧
    (∀ q : Query, (findRow [] q).1 = Except.ok []) := by
  constructor
  · intro sheet n hn
    cases sheet with
    | nil => rfl
    | cons h rest =>
      rw [findRow.eq_def]
      simp only [List.isEmpty_cons, Bool.false_eq_true, if_false]
      have hlen : (1 : Int) ≤ Int.ofNat (h :: rest).length := by
        simp [List.length_cons]
      have h1 : (n == 1) = false := by
        simp only [beq_eq_false_iff_ne, ne_eq]
        omega
      have h2 : ¬ (n ≤ Int.ofNat (h :: rest).length) := not_le.mpr hn
      simp only [h1, Bool.false_eq_true, if_false, if_neg h2]
  · intro q; rfl

/-- C4 (witness): position 5 against a two-row sheet, and a mapping query
against the empty sheet. -/
theorem c4_out_of_range_and_empty_witness :
    (findRow [["Name"], ["A"]] (Query.byIndex 5)).1 = Except.ok [] ∧
    (findRow [] (Query.byQuery [("Name", "x")])).1 = Except.ok [] := by
  obtain ⟨h1, h2⟩ := c4_out_of_range_and_empty
  exact ⟨h1 [["Name"], ["A"]] 5 (by decide), h2 (Query.byQuery [("Name", "x")])⟩

/-- C5: addRow with format-valid, pairwise-distinct keys — on a sheet with no
headers the keys of rowData, in their given order, become the header row and
are written back before the append; with existing headers every key absent
from them is appended in rowData order and the extended header row is
rewritten together with the unchanged data rows, again before the append; in
both cases the appended row holds, per header, the rowData value for that
header or the empty string when the caller did not supply it. -/
theorem c5_addRow_headers_and_append :
    ∀ rd : List (String × String),
      (∀ x ∈ rd.map Prod.fst, startsWithUppercaseLetter x = true) →
      (rd.map Prod.fst).Nodup →
      ((addRow [] rd).2 =
        [Call.valuesGet,
         Call.valuesUpdate [rd.map Prod.fst],
         Call.valuesAppend
           ((rd.map Prod.fst).map (fun x => (jsLookup rd x).getD ""))]) ∧
      (∀ (h : List String) (rest : List (List String)),
        (addRow (h :: rest) rd).2 =
          [Call.valuesGet,
           Call.valuesUpdate
             ((h ++ (rd.map Prod.fst).filter (fun x => !(h.contains x))) :: rest),
           Call.valuesAppend
             ((h ++ (rd.map Prod.fst).filter (fun x => !(h.contains x))).map
               (fun x => (jsLookup rd x).getD ""))]) := by
  intro rd hup hnd
  have hok := jsFindInvalidKey_ok_of_upper _ hup
  have hasm : ∀ hs : List String,
      assembleRow hs rd = hs.map (fun x => (jsLookup rd x).getD "") := by
    intro hs
    unfold assembleRow
    exact List.map_congr_left (fun x _ => jsOrEmpty_eq_getD _)
  constructor
  · rw [addRow.eq_def, hok]
    show [Call.valuesGet, Call.valuesUpdate [rd.map Prod.fst],
      Call.valuesAppend (assembleRow (rd.map Prod.fst) rd)] = _
    rw [hasm]
  · intro h rest
    rw [addRow.eq_def, hok]
    show [Call.valuesGet,
      Call.valuesUpdate (extendHeaders h (rd.map Prod.fst) :: rest),
      Call.valuesAppend (assembleRow (extendHeaders h (rd.map Prod.fst)) rd)] = _
    rw [extendHeaders_eq _ hnd, hasm]

/-- C5 (witness): the spec's own example — adding to an empty sheet writes
header ["Name"] then appends ["A"]; adding {Name:"B", Age:"5"} to the
resulting sheet extends the headers, rewrites them with row 2 unchanged, and
appends ["B", "5"]. -/
theorem c5_addRow_headers_and_append_witness :
    (addRow [] [("Name", "A")]).2 =
      [Call.valuesGet, Call.valuesUpdate [["Name"]], Call.valuesAppend ["A"]] ∧
    (addRow [["Name"], ["A"]] [("Name", "B"), ("Age", "5")]).2 =
      [Call.valuesGet, Call.valuesUpdate [["Name", "Age"], ["A"]],
       Call.valuesAppend ["B", "5"]] := by
  constructor
  · have h := (c5_addRow_headers_and_append [("Name", "A")]
      (by decide) (by decide)).1
    rw [h]
    decide
  · have h := (c5_addRow_headers_and_append [("Name", "B"), ("Age", "5")]
      (by decide) (by decide)).2 ["Name"] [["A"]]
    rw [h]
    decide

/-- C6: under the pre-checks, updateRow issues one batched write whose entry
for each target position starts from that position's existing row values (or
an empty row when the position has no existing row) patched by rowData; and
the patch is sparse — every column whose header is not among rowData's keys,
as well as every column beyond the header row, keeps exactly its prior
value. -/
theorem c6_updateRow_sparse_patch :
    (∀ (headers : List String) (rest : List (List String)) (arg : IndexArg)
       (rd : List (String × String)),
      (normalizeIndexes arg).contains 1 = false →
      jsFindInvalidKey (rd.map Prod.fst) = Except.ok () →
      (updateRow (headers :: rest) arg rd).1 = Except.ok () ∧
      (updateRow (headers :: rest) arg rd).2 =
        [Call.valuesGet,
         Call.valuesBatchUpdate ((normalizeIndexes arg).map (fun i =>
           (i, buildUpdatedRow headers
                 ((jsGetInt (headers :: rest) (i - 1)).getD []) rd)))]) ∧
    (∀ (headers row : List String) (rd : List (String × String)) (j : Nat),
      (∀ hname, headers.get? j = some hname → hname ∉ rd.map Prod.fst) →
      cellAt (buildUpdatedRow headers row rd) j = row.get? j) := by
  constructor
  · intro headers rest arg rd hcont hok
    constructor
    · rw [updateRow.eq_def]
      simp only [hcont, Bool.false_eq_true, if_false, hok]
    · rw [updateRow.eq_def]
      simp only [hcont, Bool.false_eq_true, if_false, hok]
  · intro headers row rd j hnotkey
    apply buildUpdatedRow_frame
    intro kv hkv hidx
    exact hnotkey kv.1 (jsIndexOf_get hidx) (List.mem_map_of_mem Prod.fst hkv)

/-- C6 (witness): updateRow(2, {Name:"X"}) against headers ["Name","Age"] and
data row ["A","7"] batches exactly the patched row, and the "Age" column of
the patched row keeps its prior value "7". -/
theorem c6_updateRow_sparse_patch_witness :
    ((updateRow [["Name", "Age"], ["A", "7"]] (IndexArg.single 2)
        [("Name", "X")]).1 = Except.ok () ∧
     (updateRow [["Name", "Age"], ["A", "7"]] (IndexArg.single 2)
        [("Name", "X")]).2 =
      [Call.valuesGet, Call.valuesBatchUpdate
        [(2, buildUpdatedRow ["Name", "Age"]
          ((jsGetInt [["Name", "Age"], ["A", "7"]] 1).getD []) [("Name", "X")])]]) ∧
    cellAt (buildUpdatedRow ["Name", "Age"] ["A", "7"] [("Name", "X")]) 1 =
      (["A", "7"] : List String).get? 1 := by
  obtain ⟨h1, h2⟩ := c6_updateRow_sparse_patch
  refine ⟨h1 ["Name", "Age"] [["A", "7"]] (IndexArg.single 2) [("Name", "X")]
    (by decide) (by decide), ?_⟩
  apply h2
  intro hname hh
  have hage : (["Name", "Age"] : List String).get? 1 = some "Age" := rfl
  rw [hage] at hh
  injection hh with hh2
  subst hh2
  decide

/-- C7: a data row matches a mapping query iff every query key resolves to a
header column whose cell satisfies the predicate; a present (string) cell is
split on commas, each part trimmed and lowercased, and must contain the
lowercased query value, while an absent cell never matches; with valid keys
findRow returns exactly the matching data rows in sheet order; and "john"
matches the cell "John, Mark" but not the cell "Johnny". -/
theorem c7_query_match_semantics :
    (∀ (h : List String) (rest : Sheet) (q : List (String × String)),
      jsFindInvalidKey (q.map Prod.fst) = Except.ok () →
      (findRow (h :: rest) (Query.byQuery q)).1 =
        Except.ok ((((h :: rest).enum).filter
            (fun p => !(p.1 == 0) && rowMatches h q p.2)).map
          (fun p => (Int.ofNat (p.1 + 1), rowToData h p.2)))) ∧
    (∀ (headers : List String) (q : List (String × String)) (row : List String),
      rowMatches headers q row = true ↔
        ∀ kv ∈ q, ∃ ci : Nat, jsIndexOf headers kv.1 = some ci ∧
          matchCell (row.get? ci) kv.2 = true) ∧
    (∀ (c v : String),
      matchCell (some c) v = true ↔
        ∃ p2 ∈ jsSplitCommas c.data, jsToLower (jsTrim p2) = jsToLower v.data) ∧
    (∀ v : String, matchCell none v = false) ∧
    matchCell (some "John, Mark") "john" = true ∧
    matchCell (some "Johnny") "john" = false := by
  refine ⟨?_, ?_, ?_, fun v => rfl, by decide, by decide⟩
  · intro h rest q hok
    exact scanRows_ok_eq h q hok ((h :: rest).enum)
  · intro headers q row
    rw [rowMatches, List.all_eq_true]
    constructor
    · intro hall kv hkv
      have hm := hall kv hkv
      cases hidx : jsIndexOf headers kv.1 with
      | none => rw [hidx] at hm; exact absurd hm (by simp)
      | some ci => rw [hidx] at hm; exact ⟨ci, rfl, hm⟩
    · intro hex kv hkv
      obtain ⟨ci, hci, hm⟩ := hex kv hkv
      rw [hci]
      exact hm
  · intro c v
    rw [matchCell]
    simp only [List.any_eq_true, List.mem_map]
    constructor
    · rintro ⟨p2, ⟨x, hx, hpx⟩, hbeq⟩
      exact ⟨x, hx, by rw [hpx]; exact beq_iff_eq.mp hbeq⟩
    · rintro ⟨x, hx, hxe⟩
      exact ⟨jsToLower (jsTrim x), ⟨x, hx, rfl⟩, beq_iff_eq.mpr hxe⟩

/-- C7 (witness): the characterization applied to the spec's example sheet —
the query {Name:"john"} against headers ["Name"] and rows "John, Mark",
"Johnny" returns exactly the first data row. -/
theorem c7_query_match_semantics_witness :
    (findRow [["Name"], ["John, Mark"], ["Johnny"]]
        (Query.byQuery [("Name", "john")])).1 =
      Except.ok (((([["Name"], ["John, Mark"], ["Johnny"]] : Sheet).enum).filter
          (fun p => !(p.1 == 0) && rowMatches ["Name"] [("Name", "john")] p.2)).map
        (fun p => (Int.ofNat (p.1 + 1), rowToData ["Name"] p.2))) := by
  exact (c7_query_match_semantics).1 ["Name"] [["John, Mark"], ["Johnny"]]
    [("Name", "john")] (by decide)

/-- C8: deleteRow normalizes its argument to a sequence and sorts it
descending before building the per-row delete requests; it issues them as one
batched structural-delete call whose ranges are the half-open 0-based
conversions [index-1, index) of the 1-based positions, and returns a count
equal to the number of replies — one per requested position. -/
theorem c8_deleteRow_descending_batch :
    ∀ (sheets : List (String × Int)) (name : String) (arg : IndexArg) (sid : Int),
      lookupSheetId sheets name = some sid →
      ∃ sorted : List Int,
        sorted.Perm (normalizeIndexes arg) ∧
        List.Pairwise (fun a b : Int => b ≤ a) sorted ∧
        (deleteRow sheets name arg).2 =
          [Call.spreadsheetsGet,
           Call.spreadsheetsBatchUpdate (sorted.map (fun i => (sid, i - 1, i)))] ∧
        (deleteRow sheets name arg).1 =
          Except.ok (Int.ofNat (normalizeIndexes arg).length) := by
  intro sheets name arg sid hsid
  refine ⟨(normalizeIndexes arg).mergeSort (fun a b => b ≤ a), ?_, ?_, ?_, ?_⟩
  · exact List.mergeSort_perm _ _
  · have hs := @List.sorted_mergeSort Int (fun a b : Int => decide (b ≤ a))
      (fun a b c hab hbc => by
        simp only [decide_eq_true_eq] at *
        exact le_trans hbc hab)
      (fun a b => by by_cases hab : b ≤ a <;> simp [hab]; omega)
      (normalizeIndexes arg)
    exact hs.imp (fun h => by simpa using h)
  · rw [deleteRow.eq_def, hsid]
  · rw [deleteRow.eq_def, hsid]
    have hlen : ((normalizeIndexes arg).mergeSort (fun a b => b ≤ a)).length
        = (normalizeIndexes arg).length := (List.mergeSort_perm _ _).length_eq
    simp [hlen]

/-- C8 (witness): deleteRow([2,4]) against a spreadsheet whose sheet "t" has
id 99 — some descending reordering of [2,4] is batched with 0-based ranges
and the reported count is 2. -/
theorem c8_deleteRow_descending_batch_witness :
    ∃ sorted : List Int,
      sorted.Perm (normalizeIndexes (IndexArg.many [2, 4])) ∧
      List.Pairwise (fun a b : Int => b ≤ a) sorted ∧
      (deleteRow [("t", 99)] "t" (IndexArg.many [2, 4])).2 =
        [Call.spreadsheetsGet,
         Call.spreadsheetsBatchUpdate (sorted.map (fun i => (99, i - 1, i)))] ∧
      (deleteRow [("t", 99)] "t" (IndexArg.many [2, 4])).1 =
        Except.ok (Int.ofNat (normalizeIndexes (IndexArg.many [2, 4])).length) :=
  c8_deleteRow_descending_batch [("t", 99)] "t" (IndexArg.many [2, 4]) 99 (by decide)

/-- C9: convertGoogleDriveLink is a pure transform — a non-string input is
returned unchanged; a string not containing the /d/<id> pattern is returned
unchanged; a string containing the pattern is rewritten to the direct-content
link built from the extracted identifier; concretely the ABC123 share link
becomes the uc?id form. -/
theorem c9_convertGoogleDriveLink :
    (∀ t : Nat,
      convertGoogleDriveLink (JsValue.nonString t) = JsValue.nonString t) ∧
    (∀ s : String,
      (¬ ∃ p c r, s.data = p ++ '/' :: 'd' :: '/' :: c :: r ∧ isIdChar c = true) →
      convertGoogleDriveLink (JsValue.str s) = JsValue.str s) ∧
    (∀ (s : String) (p r : List Char) (c : Char),
      s.data = p ++ '/' :: 'd' :: '/' :: c :: r → isIdChar c = true →
      ∃ ident, findId s.data = some ident ∧
        convertGoogleDriveLink (JsValue.str s) =
          JsValue.str (driveLinkBase ++ String.mk ident)) ∧
    convertGoogleDriveLink
        (JsValue.str "https://drive.google.com/file/d/ABC123/view") =
      JsValue.str "https://drive.google.com/uc?id=ABC123" := by
  refine ⟨fun t => rfl, ?_, ?_, by decide⟩
  · intro s hno
    cases hf : findId s.data with
    | none =>
      rw [convertGoogleDriveLink.eq_def]
      simp only [hf]
    | some ident =>
      exact absurd (findId_some_decomp s.data ident hf) hno
  · intro s p r c hd hc
    have hsome : (findId s.data).isSome := by
      rw [hd]; exact findId_isSome_of_decomp p c r hc
    obtain ⟨ident, hident⟩ := Option.isSome_iff_exists.mp hsome
    refine ⟨ident, hident, ?_⟩
    rw [convertGoogleDriveLink.eq_def]
    simp only [hident]

/-- C9 (witness): a URL without the pattern is unchanged, and the ABC123
share link rewrites through the extracted identifier. -/
theorem c9_convertGoogleDriveLink_witness :
    convertGoogleDriveLink (JsValue.str "https://example.com/nope") =
      JsValue.str "https://example.com/nope" ∧
    (∃ ident,
      findId ("https://drive.google.com/file/d/ABC123/view").data = some ident ∧
      convertGoogleDriveLink
          (JsValue.str "https://drive.google.com/file/d/ABC123/view") =
        JsValue.str (driveLinkBase ++ String.mk ident)) := by
  obtain ⟨h1, h2, h3, h4⟩ := c9_convertGoogleDriveLink
  constructor
  · apply h2
    rintro ⟨p, c, r, hd, hc⟩
    have hsome := findId_isSome_of_decomp p c r hc
    rw [← hd] at hsome
    have hnone : findId ("https://example.com/nope").data = none := by decide
    rw [hnone] at hsome
    exact Bool.noConfusion hsome
  · exact h3 _ ("https://drive.google.com/file".data) ("BC123/view".data) 'A'
      (by decide) (by decide)

/-- C10: updateRow silently ignores every rowData key that is not a header —
dropping the unknown-key entries leaves every patched row unchanged (no cell
is written for them), no error arises from them, and every batched write
targets a requested position, never row 1, so the header row is unchanged by
every updateRow call. -/
theorem c10_updateRow_ignores_unknown_keys :
    (∀ (headers row : List String) (rd : List (String × String)),
      buildUpdatedRow headers row rd =
        buildUpdatedRow headers row
          (rd.filter (fun kv => (jsIndexOf headers kv.1).isSome))) ∧
    (∀ (headers : List String) (rest : List (List String)) (arg : IndexArg)
       (rd : List (String × String)),
      (normalizeIndexes arg).contains 1 = false →
      jsFindInvalidKey (rd.map Prod.fst) = Except.ok () →
      (updateRow (headers :: rest) arg rd).1 = Except.ok () ∧
      (∀ reqs,
        Call.valuesBatchUpdate reqs ∈ (updateRow (headers :: rest) arg rd).2 →
        ∀ req ∈ reqs, req.1 ∈ normalizeIndexes arg ∧ req.1 ≠ 1)) := by
  constructor
  · intro headers row rd
    unfold buildUpdatedRow
    generalize (row.map some) = acc
    induction rd generalizing acc with
    | nil => rfl
    | cons kv rest ih =>
      rw [List.foldl_cons, List.filter_cons]
      cases hidx : jsIndexOf headers kv.1 with
      | none =>
        simp only [hidx, Option.isSome_none, Bool.false_eq_true, if_false]
        exact ih acc
      | some i =>
        simp only [hidx, Option.isSome_some, if_true, List.foldl_cons]
        exact ih (jsArraySet acc i kv.2)
  · intro headers rest arg rd hcont hok
    have h2 : (updateRow (headers :: rest) arg rd).2 =
        [Call.valuesGet,
         Call.valuesBatchUpdate ((normalizeIndexes arg).map (fun i =>
           (i, buildUpdatedRow headers
                 ((jsGetInt (headers :: rest) (i - 1)).getD []) rd)))] := by
      rw [updateRow.eq_def]
      simp only [hcont, Bool.false_eq_true, if_false, hok]
    have hnotmem : (1 : Int) ∉ normalizeIndexes arg := by
      intro hmem
      have : (normalizeIndexes arg).contains 1 = true := by
        simp [List.contains, List.elem_eq_mem, hmem]
      rw [hcont] at this
      exact Bool.noConfusion this
    constructor
    · rw [updateRow.eq_def]
      simp only [hcont, Bool.false_eq_true, if_false, hok]
    · intro reqs hmem req hreq
      rw [h2] at hmem
      simp only [List.mem_cons, List.not_mem_nil, or_false] at hmem
      rcases hmem with h | h
      · exact absurd h (by simp)
      · have hreqs := Call.valuesBatchUpdate.inj h
        subst hreqs
        obtain ⟨i, hi, hie⟩ := List.mem_map.mp hreq
        have hfst : req.1 = i := by rw [← hie]
        rw [hfst]
        exact ⟨hi, fun he => hnotmem (he ▸ hi)⟩

/-- C10 (witness): the unknown key "Ghost" against headers ["Name"] writes
nothing, raises nothing, and the single batched write targets row 2 only. -/
theorem c10_updateRow_ignores_unknown_keys_witness :
    buildUpdatedRow ["Name"] ["A"] [("Ghost", "x")] =
      buildUpdatedRow ["Name"] ["A"]
        ([("Ghost", "x")].filter (fun kv => (jsIndexOf ["Name"] kv.1).isSome)) ∧
    (updateRow [["Name"], ["A"]] (IndexArg.single 2) [("Ghost", "x")]).1 =
      Except.ok () ∧
    ((2 : Int) ∈ normalizeIndexes (IndexArg.single 2) ∧ (2 : Int) ≠ 1) := by
  obtain ⟨h1, h2⟩ := c10_updateRow_ignores_unknown_keys
  have h3 := h2 ["Name"] [["A"]] (IndexArg.single 2) [("Ghost", "x")]
    (by decide) (by decide)
  refine ⟨h1 ["Name"] ["A"] [("Ghost", "x")], h3.1, ?_⟩
  exact h3.2 [(2, [some "A"])] (by decide) (2, [some "A"]) (by decide)

end GSheetsCrud
